import Mathlib

/-!
Verification of the repository snapshot publisher
(`scripts/generate_worktree_info.py`): the git `ls-tree` path codec, the
tree-metadata collector, and the publish state machine with its
marker-based idempotency scheme, shallowly embedded in Lean.

Bytes are modelled as `Nat` values (each `< 256` where the source
guarantees it); Python byte strings become `List Nat`; Python `str`
becomes Lean `String`; exceptions become `Except` values.
-/

set_option autoImplicit false

namespace RepoSnap

/-- Failure modes of the path codec, mirroring how the Python source can
fail: `malformedPath` is the `RuntimeError` deliberately raised by
`decode_git_ls_tree_path` (the spec's `MalformedPath`), while `uncaught`
records an exception that escapes the function undeliberately (the
Python exception class name is kept as a string: `ValueError` from
`int(value_literal, 8)` on a digit outside `0..7` and from
`bytes(escaped_array)` on a value above 255, `UnicodeDecodeError` from
`.decode("utf-8")`, `SyntaxError`/`AssertionError` from the
`eval`-based C-escape branch whose `except SyntaxWarning or SyntaxError
or AssertionError` clause only catches `SyntaxWarning`). -/
inductive DecodeErr where
  | malformedPath (msg : String)
  | uncaught (kind : String)
deriving DecidableEq, Repr

/-- Source `is_digit_in_ascii`: `ord("0") <= c <= ord("9")`. -/
def is_digit_in_ascii (c : Nat) : Bool :=
  48 ≤ c && c ≤ 57

/-- The single-character C-style escapes recognised by a Python bytes
literal, as exercised by the source's `eval(rf'b"\{chr(escaped_alpha)}"')`
(digits never reach this branch).  `some b` is the one output byte of
`b"\<c>"`; `none` means the `eval`/`assert` fails and the exception
escapes the function. -/
def cEscape (c : Nat) : Option Nat :=
  if c = 92 then some 92        -- backslash
  else if c = 39 then some 39   -- single quote
  else if c = 34 then some 34   -- double quote
  else if c = 97 then some 7    -- a: bell
  else if c = 98 then some 8    -- b: backspace
  else if c = 102 then some 12  -- f: form feed
  else if c = 110 then some 10  -- n: newline
  else if c = 114 then some 13  -- r: carriage return
  else if c = 116 then some 9   -- t: tab
  else if c = 118 then some 11  -- v: vertical tab
  else none

/-- The kind of exception escaping the C-escape branch when `cEscape`
yields `none`: `b"\x"` (truncated hex escape) and non-ASCII characters
raise `SyntaxError` inside `eval`; otherwise the literal evaluates to a
byte string of length other than one and the `assert` raises
`AssertionError`.  Neither is caught by the source's `except` clause. -/
def cEscapeErrKind (c : Nat) : String :=
  if c = 120 ∨ 128 ≤ c then "SyntaxError" else "AssertionError"

/-- The escape-decoding loop of `decode_git_ls_tree_path` (source lines
65..102): scans the (quote-stripped) bytes, passing plain bytes through,
turning `\ddd` (three ASCII digits) into `int(ddd, 8)` and `\<c>` into
the one byte of the corresponding C escape.  A hanging backslash, a
short or non-digit octal literal raise the source's `RuntimeError`; a
digit `8` or `9` inside the three-digit literal slips past the
`is_digit_in_ascii` check and makes `int(value_literal, 8)` raise an
uncaught `ValueError`. -/
def decodeEscapes : List Nat → Except DecodeErr (List Nat)
  | [] => .ok []
  | c :: rest =>
    if c ≠ 92 then
      (decodeEscapes rest).map (fun r => c :: r)
    else
      match rest with
      | [] =>
        .error (.malformedPath
          "Invalid git ls-tree output: path ill-escaped, ending with hangling backslash")
      | e :: rest2 =>
        if is_digit_in_ascii e then
          match rest2 with
          | d2 :: d3 :: rest3 =>
            if is_digit_in_ascii d2 && is_digit_in_ascii d3 then
              if e ≤ 55 && d2 ≤ 55 && d3 ≤ 55 then
                (decodeEscapes rest3).map
                  (fun r => ((e - 48) * 64 + (d2 - 48) * 8 + (d3 - 48)) :: r)
              else
                .error (.uncaught "ValueError")
            else
              .error (.malformedPath
                "Invalid git ls-tree output: path ill-escaped, wrong octal escape sequence")
          | _ =>
            .error (.malformedPath
              "Invalid git ls-tree output: path ill-escaped, wrong octal escape sequence")
        else
          match cEscape e with
          | some b => (decodeEscapes rest2).map (fun r => b :: r)
          | none => .error (.uncaught (cEscapeErrKind e))

/-- Quote stripping at the top of `decode_git_ls_tree_path` (source
lines 58..63): `content.startswith(b'"')` forces
`content.endswith(b'"')` (else the `RuntimeError`), then
`content[1:-1]`. -/
def stripQuotes (content : List Nat) : Except DecodeErr (List Nat) :=
  if content.head? = some 34 then
    if content.getLast? = some 34 then
      .ok ((content.drop 1).dropLast)
    else
      .error (.malformedPath "Invalid git ls-tree output: path ill-quoted")
  else
    .ok content

/-- Continuation byte test for strict UTF-8 decoding: `0x80..0xBF`. -/
def utf8Cont (b : Nat) : Bool :=
  128 ≤ b && b ≤ 191

/-- Strict UTF-8 decoding as a byte state machine: `none` expects a
lead byte; `some (cp, k, lo)` is a partially built code point with `k`
continuation bytes still missing and `lo` the smallest code point a
sequence of this length may encode (the overlong bound; 2-byte leads
`0xC0`/`0xC1` are already rejected at the lead).  On the final
continuation byte the code point must lie in `[lo, 0x10FFFF]` and
outside the surrogate range.  This accepts and rejects exactly as
Python's strict `bytes.decode("utf-8")` does: truncated sequences,
stray or missing continuation bytes, overlong encodings, surrogates and
code points above `0x10FFFF` all fail. -/
def utf8Aux : Option (Nat × Nat × Nat) → List Nat → Option (List Char)
  | none, [] => some []
  | some _, [] => none
  | none, b :: rest =>
    if b ≤ 127 then
      (utf8Aux none rest).map (fun cs => Char.ofNat b :: cs)
    else if 194 ≤ b ∧ b ≤ 223 then
      utf8Aux (some (b - 192, 1, 128)) rest
    else if 224 ≤ b ∧ b ≤ 239 then
      utf8Aux (some (b - 224, 2, 2048)) rest
    else if 240 ≤ b ∧ b ≤ 244 then
      utf8Aux (some (b - 240, 3, 65536)) rest
    else none
  | some (cp, k, lo), b :: rest =>
    if utf8Cont b then
      if k = 1 then
        if lo ≤ cp * 64 + (b - 128) ∧ cp * 64 + (b - 128) ≤ 1114111
            ∧ ¬ (55296 ≤ cp * 64 + (b - 128) ∧ cp * 64 + (b - 128) ≤ 57343) then
          (utf8Aux none rest).map
            (fun cs => Char.ofNat (cp * 64 + (b - 128)) :: cs)
        else none
      else
        utf8Aux (some (cp * 64 + (b - 128), k - 1, lo)) rest
    else none

/-- Python's `bytes.decode("utf-8")`. -/
def utf8Decode (l : List Nat) : Option (List Char) :=
  utf8Aux none l

/-- Source `decode_git_ls_tree_path` (lines 55..103): strip a
double-quote wrapper, decode the escape sequences byte by byte, then
interpret the accumulated bytes — `bytes(escaped_array)` demands every
value below 256 (octal escapes can reach 511), raising `ValueError`
otherwise — as UTF-8 text, `UnicodeDecodeError` on invalid UTF-8. -/
def decode_git_ls_tree_path (content : List Nat) : Except DecodeErr String :=
  match stripQuotes content with
  | .error e => .error e
  | .ok body =>
    match decodeEscapes body with
    | .error e => .error e
    | .ok bytes =>
      if bytes.all (fun b => decide (b < 256)) then
        match utf8Decode bytes with
        | some chars => .ok (String.mk chars)
        | none => .error (.uncaught "UnicodeDecodeError")
      else
        .error (.uncaught "ValueError")

/-!
Marker extraction.  `get_last_worktree_info_target` runs
`re.findall(rb"<\|([a-z0-9]+)\|>", commit_message)` and accepts the
result only when exactly one match is found.
-/

/-- Byte class of the marker body: the regex class `[a-z0-9]`. -/
def isMarkerChar (c : Nat) : Bool :=
  (97 ≤ c && c ≤ 122) || (48 ≤ c && c ≤ 57)

/-- Greedy scan of a maximal run of `[a-z0-9]` bytes, returning the run
and the remaining bytes. -/
def takeMarkerRun : List Nat → List Nat × List Nat
  | [] => ([], [])
  | c :: rest =>
    if isMarkerChar c then
      let p := takeMarkerRun rest
      (c :: p.1, p.2)
    else
      ([], c :: rest)

/-- Attempt to match the regex `<\|([a-z0-9]+)\|>` at the head of the
byte list, returning the captured group.  The greedy maximal run
faithfully implements the regex engine here: `|` is not in `[a-z0-9]`,
so no backtracking to a shorter run can ever succeed when the maximal
run is not followed by `|>`. -/
def matchMarker (l : List Nat) : Option (List Nat) :=
  match l with
  | c1 :: c2 :: rest =>
    if c1 = 60 && c2 = 124 then
      let run := (takeMarkerRun rest).1
      let after := (takeMarkerRun rest).2
      if run = [] then none
      else
        match after with
        | a :: b :: _ => if a = 124 && b = 62 then some run else none
        | _ => none
    else none
  | _ => none

/-- All captures of `re.findall(rb"<\|([a-z0-9]+)\|>", l)`, left to
right: the capture at every position where the pattern matches.  This
coincides with `findall`'s non-overlapping semantics because a match's
interior (`|`, marker bytes, `|`, `>`) never contains `<`, so no match
can start strictly inside another. -/
def findMarkers : List Nat → List (List Nat)
  | [] => []
  | c :: rest =>
    match matchMarker (c :: rest) with
    | some run => run :: findMarkers rest
    | none => findMarkers rest

/-- The bytes of an ASCII string literal. -/
def asciiBytes (s : String) : List Nat :=
  s.toList.map Char.toNat

/-- Byte class of a lowercase hexadecimal digit, the alphabet of a full
git commit hash. -/
def isLowerHex (c : Nat) : Bool :=
  (48 ≤ c && c ≤ 57) || (97 ≤ c && c ≤ 102)

/-- The commit message written by
`collect_info_and_saved_to_another_branch` (source line 174):
`update worktree info for <|` + hash + `|>`. -/
def commitMessageFor (h : List Nat) : List Nat :=
  asciiBytes "update worktree info for <|" ++ h ++ asciiBytes "|>"

/-!
Tree metadata collector (`collect_info_for_head_commit`).  The external
command outputs become explicit inputs: the `ls-tree` listing as its
list of lines, and the per-path history query as a function from the
decoded path to the raw (stripped) stdout bytes.
-/

/-- One entry per tracked file at the source commit: blob byte size,
Unix timestamp and full hash of the most recent commit touching the
path. -/
structure FileRecord where
  size : Int
  time : Int
  hash : String
deriving DecidableEq, Repr

/-- The `files_data` mapping, keyed by decoded path, in insertion
order. -/
abbrev Snapshot := List (String × FileRecord)

/-- Python `dict` assignment `d[k] = v` on an association list: update
the existing entry in place if the key is present, append otherwise. -/
def dictInsert {κ α : Type} [DecidableEq κ] (d : List (κ × α)) (k : κ) (v : α) :
    List (κ × α) :=
  if k ∈ d.map Prod.fst then
    d.map (fun q => if q.1 = k then (k, v) else q)
  else
    d ++ [(k, v)]

/-- Python `bytes.split` with the one-byte separator `b"\0"`: always at
least one (possibly empty) field. -/
def splitOnNul : List Nat → List (List Nat)
  | [] => [[]]
  | c :: rest =>
    if c = 0 then
      [] :: splitOnNul rest
    else
      match splitOnNul rest with
      | [] => [[c]]
      | p :: ps => (c :: p) :: ps

/-- ASCII whitespace stripped by Python `int()`. -/
def isPySpace (c : Nat) : Bool :=
  c = 32 || c = 9 || c = 10 || c = 13 || c = 11 || c = 12

/-- Value of a nonempty all-decimal-digit byte run, else `none`. -/
def decDigitsVal (ds : List Nat) : Option Nat :=
  if ds ≠ [] ∧ ds.all is_digit_in_ascii then
    some (ds.foldl (fun a c => a * 10 + (c - 48)) 0)
  else
    none

/-- Python `int()` on a byte string: surrounding ASCII whitespace is
stripped, then an optional sign and a nonempty run of decimal digits
(numeric underscores, irrelevant to git's output, are not modelled);
`none` is the `ValueError`. -/
def pyInt (bs : List Nat) : Option Int :=
  let t := ((bs.dropWhile isPySpace).reverse.dropWhile isPySpace).reverse
  match t with
  | 43 :: ds => (decDigitsVal ds).map Int.ofNat
  | 45 :: ds => (decDigitsVal ds).map (fun n => -(n : Int))
  | ds => (decDigitsVal ds).map Int.ofNat

/-- Python `bytes.decode("ascii")`: every byte below 128, else
`UnicodeDecodeError`. -/
def asciiDecode (bs : List Nat) : Except DecodeErr String :=
  if bs.all (fun b => b < 128) then
    .ok (String.mk (bs.map Char.ofNat))
  else
    .error (.uncaught "UnicodeDecodeError")

/-- Parsing of one history-query output (source lines 127..133):
`timestamp NUL hash`.  Unpacking into two names demands exactly two
NUL-separated fields — on empty output (`MissingHistoryRecord`) the
split yields one field and the unpacking raises an uncaught
`ValueError` — then `int()` on the timestamp and an ASCII decode of the
hash, read together from the single query. -/
def parseTimeHash (raw : List Nat) : Except DecodeErr (Int × String) :=
  match splitOnNul raw with
  | [t, h] =>
    match pyInt t with
    | some time => (asciiDecode h).map (fun hs => (time, hs))
    | none => .error (.uncaught "ValueError")
  | _ => .error (.uncaught "ValueError")

/-- Parsing of one listing line `%(objectsize)%x00%(path)` (source
lines 117..122): exactly two NUL-separated fields, the path decoded by
the codec, then the size converted by `int()` — the same order as the
source, codec first. -/
def parseLine (line : List Nat) : Except DecodeErr (String × Int) :=
  match splitOnNul line with
  | [szB, raw] =>
    (decode_git_ls_tree_path raw).bind (fun p =>
      match pyInt szB with
      | some n => .ok (p, n)
      | none => .error (.uncaught "ValueError"))
  | _ => .error (.uncaught "ValueError")

/-- Phase 1 of `collect_info_for_head_commit` (source lines 113..122):
fold the listing lines into the `files_data` dict keyed by decoded
path; `d` is the dict built so far. -/
def collectSizes :
    List (String × Int) → List (List Nat) → Except DecodeErr (List (String × Int))
  | d, [] => .ok d
  | d, line :: rest =>
    (parseLine line).bind (fun x => collectSizes (dictInsert d x.1 x.2) rest)

/-- Phase 2 of `collect_info_for_head_commit` (source lines 125..133):
for each dict key in insertion order, parse that path's history-query
output and extend the entry with its time and hash. -/
def collectTimes (hist : String → List Nat) :
    List (String × Int) → Except DecodeErr Snapshot
  | [] => .ok []
  | (p, sz) :: rest =>
    (parseTimeHash (hist p)).bind (fun th =>
      (collectTimes hist rest).map (fun r => (p, FileRecord.mk sz th.1 th.2) :: r))

/-- Source `collect_info_for_head_commit` (lines 106..135) with the
external command outputs as inputs: `lines` is
`ls_tree_output.splitlines()` and `hist` the per-path history output.
(The initial `commit-graph write` is a must-succeed performance step
with no bearing on the result.) -/
def collect_info_for_head_commit (lines : List (List Nat))
    (hist : String → List Nat) : Except DecodeErr Snapshot :=
  (collectSizes [] lines).bind (collectTimes hist)

/-- All listing lines parsed independently, in order.  Used to state
claims whose premise is that every listed path decodes successfully. -/
def parseLines : List (List Nat) → Except DecodeErr (List (String × Int))
  | [] => .ok []
  | line :: rest =>
    (parseLine line).bind (fun x => (parseLines rest).map (fun r => x :: r))

/-!
Publish state machine (`main`, `get_last_worktree_info_target`,
`collect_info_and_saved_to_another_branch`).
-/

/-- A commit on the target branch: full hash and subject line. -/
structure Commit where
  id : List Nat
  subject : List Nat
deriving DecidableEq, Repr

/-- The git world state the pipeline observes and mutates: the source
branch's HEAD hash, the target branch's commits (newest first; `[]`
covers both an absent branch and an orphan branch with no commits —
reading its last commit fails either way, a recoverable probe), and the
two destination stores on the target branch, `worktree.json` and the
`history/<hash>.json` files.  The model identifies the local and remote
target branch: a successful run ends with a push, so `CHECK` of the
next run reads what the previous run committed. -/
structure RepoState where
  headCommit : List Nat
  targetBranch : List Commit
  worktreeJson : Option Snapshot
  historyFiles : List (List Nat × Snapshot)
deriving DecidableEq, Repr

/-- stdout of `git log -1 --oneline <ref>`: abbreviated commit hash
(seven bytes in the unambiguous case), a space, and the subject line
(decorations are off because stdout is a captured pipe). -/
def onelineOf (c : Commit) : List Nat :=
  c.id.take 7 ++ 32 :: c.subject

/-- The probe `git log -1 --oneline origin/<branch> --` behind
`get_last_worktree_info_target`: fails (recoverably, `allow_fail`) when
the branch has no commit to show. -/
def readLastOneline (s : RepoState) : Option (List Nat) :=
  match s.targetBranch with
  | [] => none
  | c :: _ => some (onelineOf c)

/-- Source `get_last_worktree_info_target` (lines 179..202): read the
target branch's last oneline commit message — a failing command (no
such ref) is caught and yields `None` — then `findall` the marker
pattern and accept the result only when exactly one match is found. -/
def get_last_worktree_info_target (s : RepoState) : Option (List Nat) :=
  match readLastOneline s with
  | none => none
  | some msg =>
    match findMarkers msg with
    | [m] => some m
    | _ => none

/-- Source `collect_info_and_saved_to_another_branch` (lines 164..176)
after a successful collection: switch to (or create as orphan) the
target branch, write `worktree.json` and `history/<hash>.json`, commit
with the marker message and push.  `info` is the collected snapshot and
`newId` the hash git assigns to the new commit. -/
def collect_info_and_saved_to_another_branch (s : RepoState) (info : Snapshot)
    (newId : List Nat) : RepoState :=
  { s with
    targetBranch := Commit.mk newId (commitMessageFor s.headCommit) :: s.targetBranch
    worktreeJson := some info
    historyFiles := dictInsert s.historyFiles s.headCommit info }

/-- Source `main` (lines 205..220): extract the last published marker,
compare it against the source HEAD commit (`None` compares unequal to
any hash), and either stop (`UP_TO_DATE`, no mutation) or collect and
publish. -/
def mainStep (s : RepoState) (info : Snapshot) (newId : List Nat) : RepoState :=
  match get_last_worktree_info_target s with
  | some t =>
    if t = s.headCommit then s
    else collect_info_and_saved_to_another_branch s info newId
  | none => collect_info_and_saved_to_another_branch s info newId

/-!
The listing-side quoting of the external tool, for the round-trip claim.
-/

/-- Quoting of one printable-ASCII byte inside the quoted form: a
double quote or backslash is preceded by a backslash, any other byte
passes through. -/
def quoteByte (b : Nat) : List Nat :=
  if b = 34 ∨ b = 92 then [92, b] else [b]

/-- Modelled from the spec: the version-control tool's own quoting of a
printable-ASCII path at the listing interface (spec sections 4.1 and 8;
the tool is an external collaborator, its code is not under `src/`).
For printable ASCII the tool emits the raw bytes unless the path
contains a double quote or backslash, in which case it wraps the path
in double quotes and backslash-escapes those two bytes. -/
def gitQuotePath (p : List Nat) : List Nat :=
  if p.any (fun b => decide (b = 34 ∨ b = 92)) then
    34 :: ((p.map quoteByte).flatten ++ [34])
  else p

/-- The text form of an ASCII byte sequence. -/
def asciiString (p : List Nat) : String :=
  String.mk (p.map Char.ofNat)

/-!
Codec claims on concrete inputs and on the unterminated-quote class.
-/

/-- C3 — Octal escape correctness of the path codec: decoding the quoted
input whose bytes are `"a\303\251.txt"` (double-quoted, with the two
3-digit octal escapes `\303` and `\251`, the UTF-8 bytes of `é`)
returns the text `aé.txt` — the single decoded character, not the
literal backslash-digit sequence.  The byte list spells
`"` `a` `\` `3` `0` `3` `\` `2` `5` `1` `.` `t` `x` `t` `"`. -/
theorem octal_escape_decodes_utf8 :
    decode_git_ls_tree_path
      [34, 97, 92, 51, 48, 51, 92, 50, 53, 49, 46, 116, 120, 116, 34]
      = .ok "aé.txt" := by
  rfl

/-- C4 — Unterminated quote rejection: every input byte sequence that
begins with a double-quote byte but does not end with a closing
double-quote byte fails with the codec's `MalformedPath` error (the
ill-quoted `RuntimeError`), never returning a decoded path. -/
theorem unterminated_quote_rejected (bs : List Nat)
    (h1 : bs.head? = some 34) (h2 : bs.getLast? ≠ some 34) :
    decode_git_ls_tree_path bs
      = .error (.malformedPath "Invalid git ls-tree output: path ill-quoted") := by
  unfold decode_git_ls_tree_path stripQuotes
  rw [if_pos h1, if_neg h2]

/-- Witness for C4 at the concrete input `"a` (opening quote, then
`a`, no closing quote). -/
theorem unterminated_quote_rejected_witness :
    decode_git_ls_tree_path [34, 97]
      = .error (.malformedPath "Invalid git ls-tree output: path ill-quoted") :=
  unterminated_quote_rejected [34, 97] rfl (by decide)

/-- C5 — the failing input for the octal-escape claim: the unquoted
input `\900` has a backslash followed by three ASCII digits, so it
passes the source's `is_digit_in_ascii` validation, but the digit `9`
is outside the octal range and `int(value_literal, 8)` raises an
uncaught `ValueError` — the run crashes with `ValueError`, not with the
codec's deliberate `MalformedPath` `RuntimeError`. -/
theorem octal_digit_out_of_range_uncaught :
    decode_git_ls_tree_path [92, 57, 48, 48] = .error (.uncaught "ValueError") := by
  rfl

/-- C10 — implicit edge case: the input consisting of exactly one
double-quote byte satisfies both the opening-quote (`startswith`) and
closing-quote (`endswith`) checks, both are stripped by
`content[1:-1]`, and decode returns the empty string rather than an
unterminated-quote error. -/
theorem lone_quote_accepted :
    decode_git_ls_tree_path [34] = .ok "" := by
  rfl

/-!
Marker-extraction lemmas.
-/

theorem markerChar_ne_lt {c : Nat} (h : isMarkerChar c = true) : c ≠ 60 := by
  simp [isMarkerChar] at h
  omega

theorem lowerHex_markerChar {c : Nat} (h : isLowerHex c = true) :
    isMarkerChar c = true := by
  simp [isLowerHex] at h
  simp [isMarkerChar]
  omega

theorem takeMarkerRun_append (run rest : List Nat)
    (h1 : ∀ c ∈ run, isMarkerChar c = true)
    (h2 : ∀ c, rest.head? = some c → isMarkerChar c = false) :
    takeMarkerRun (run ++ rest) = (run, rest) := by
  induction run with
  | nil =>
    cases rest with
    | nil => rfl
    | cons a t => simp [takeMarkerRun, h2 a rfl]
  | cons a run ih =>
    have ha := h1 a (by simp)
    simp [takeMarkerRun, ha, ih (fun c hc => h1 c (by simp [hc]))]

theorem matchMarker_cons_ne {c : Nat} (l : List Nat) (h : c ≠ 60) :
    matchMarker (c :: l) = none := by
  cases l with
  | nil => rfl
  | cons b t => simp [matchMarker, h]

theorem matchMarker_hit (run rest : List Nat) (hne : run ≠ [])
    (hrun : ∀ c ∈ run, isMarkerChar c = true) :
    matchMarker (60 :: 124 :: (run ++ 124 :: 62 :: rest)) = some run := by
  have hrest : takeMarkerRun (run ++ 124 :: 62 :: rest) = (run, 124 :: 62 :: rest) := by
    refine takeMarkerRun_append run _ hrun ?_
    intro c hc
    simp at hc
    subst hc
    decide
  simp [matchMarker, hrest, hne]

theorem findMarkers_cons_none (c : Nat) (l : List Nat)
    (h : matchMarker (c :: l) = none) :
    findMarkers (c :: l) = findMarkers l := by
  rw [findMarkers, h]

theorem findMarkers_cons_some (c : Nat) (l run : List Nat)
    (h : matchMarker (c :: l) = some run) :
    findMarkers (c :: l) = run :: findMarkers l := by
  rw [findMarkers, h]

theorem findMarkers_skip (p rest : List Nat) (hp : ∀ c ∈ p, c ≠ 60) :
    findMarkers (p ++ rest) = findMarkers rest := by
  induction p with
  | nil => rfl
  | cons a p ih =>
    rw [List.cons_append,
      findMarkers_cons_none a (p ++ rest) (matchMarker_cons_ne _ (hp a (by simp)))]
    exact ih (fun c hc => hp c (by simp [hc]))

theorem findMarkers_single (pre run rest : List Nat)
    (hpre : ∀ c ∈ pre, c ≠ 60) (hne : run ≠ [])
    (hrun : ∀ c ∈ run, isMarkerChar c = true) :
    findMarkers (pre ++ 60 :: 124 :: (run ++ 124 :: 62 :: rest))
      = run :: findMarkers rest := by
  rw [findMarkers_skip pre _ hpre]
  rw [findMarkers_cons_some _ _ _ (matchMarker_hit run rest hne hrun)]
  congr 1
  have hshape : (124 : Nat) :: (run ++ 124 :: 62 :: rest)
      = (124 :: run ++ [124, 62]) ++ rest := by
    simp
  rw [hshape]
  refine findMarkers_skip _ _ ?_
  intro c hc
  simp at hc
  rcases hc with hc | hc | hc | hc
  · omega
  · exact markerChar_ne_lt (hrun c hc)
  · omega
  · omega

theorem commitMessageFor_shape (h : List Nat) :
    commitMessageFor h
      = asciiBytes "update worktree info for "
        ++ (60 :: 124 :: (h ++ 124 :: 62 :: [])) := by
  have h1 : asciiBytes "update worktree info for <|"
      = asciiBytes "update worktree info for " ++ [60, 124] := by decide
  have h2 : asciiBytes "|>" = [124, 62] := by decide
  simp [commitMessageFor, h1, h2]

/-- C7 — Marker round-trip: for every 40-character lowercase-hex commit
hash `h`, applying CHECK's marker extraction (`findall` of the pattern
over the message) to the exact commit message produced by COMMIT_PUSH
for `h` finds exactly one marker match, and that match is `h`. -/
theorem marker_roundtrip (h : List Nat) (hlen : h.length = 40)
    (hhex : ∀ c ∈ h, isLowerHex c = true) :
    findMarkers (commitMessageFor h) = [h] := by
  have hne : h ≠ [] := by
    intro he
    rw [he] at hlen
    simp at hlen
  rw [commitMessageFor_shape,
    findMarkers_single _ _ _ (by decide) hne
      (fun c hc => lowerHex_markerChar (hhex c hc))]
  rfl

/-- Witness for C7 at the concrete hash made of forty `a` bytes. -/
theorem marker_roundtrip_witness :
    findMarkers (commitMessageFor (List.replicate 40 97))
      = [List.replicate 40 97] :=
  marker_roundtrip (List.replicate 40 97) (by decide) (by decide)

/-!
Publish state machine: the CHECK decision rule and idempotency.
-/

theorem lowerHex_ne_lt {c : Nat} (h : isLowerHex c = true) : c ≠ 60 := by
  simp [isLowerHex] at h
  omega

theorem findMarkers_oneline (abbrevId h : List Nat)
    (habbrev : ∀ c ∈ abbrevId, isLowerHex c = true)
    (hne : h ≠ []) (hh : ∀ c ∈ h, isLowerHex c = true) :
    findMarkers (abbrevId.take 7 ++ 32 :: commitMessageFor h) = [h] := by
  rw [commitMessageFor_shape]
  have hshape : abbrevId.take 7
        ++ 32 :: (asciiBytes "update worktree info for "
          ++ (60 :: 124 :: (h ++ 124 :: 62 :: [])))
      = (abbrevId.take 7 ++ 32 :: asciiBytes "update worktree info for ")
        ++ (60 :: 124 :: (h ++ 124 :: 62 :: [])) := by
    simp
  rw [hshape, findMarkers_single _ _ _ ?hpre hne
    (fun c hc => lowerHex_markerChar (hh c hc))]
  · rfl
  case hpre =>
    intro c hc
    simp at hc
    rcases hc with hc | hc | hc
    · exact lowerHex_ne_lt (habbrev c (List.take_subset 7 abbrevId hc))
    · omega
    · have hlit : ∀ c ∈ asciiBytes "update worktree info for ", c ≠ 60 := by decide
      exact hlit c hc

/-- C2 — CHECK decision rule: reading the target branch's latest commit
message, if exactly one marker matching the delimited pattern is found
and it equals the source commit hash, the run is a no-op
(`UP_TO_DATE`); if the target ref does not exist (the probe fails), or
the number of matches is not one, the extraction yields `None` ("no
marker found", not an error) and the run proceeds to COLLECT and
publish. -/
theorem check_decision_rule (s : RepoState) (info : Snapshot) (newId : List Nat) :
    (∀ msg, readLastOneline s = some msg →
      findMarkers msg = [s.headCommit] →
      mainStep s info newId = s) ∧
    (readLastOneline s = none →
      get_last_worktree_info_target s = none ∧
      mainStep s info newId
        = collect_info_and_saved_to_another_branch s info newId) ∧
    (∀ msg, readLastOneline s = some msg →
      (findMarkers msg).length ≠ 1 →
      get_last_worktree_info_target s = none ∧
      mainStep s info newId
        = collect_info_and_saved_to_another_branch s info newId) := by
  refine ⟨?_, ?_, ?_⟩
  · intro msg hr hf
    have hgl : get_last_worktree_info_target s = some s.headCommit := by
      unfold get_last_worktree_info_target
      rw [hr]
      show (match findMarkers msg with
        | [m] => some m
        | _ => none) = some s.headCommit
      rw [hf]
    unfold mainStep
    rw [hgl]
    simp
  · intro hr
    have hgl : get_last_worktree_info_target s = none := by
      unfold get_last_worktree_info_target
      rw [hr]
    refine ⟨hgl, ?_⟩
    unfold mainStep
    rw [hgl]
  · intro msg hr hlen
    have hgl : get_last_worktree_info_target s = none := by
      unfold get_last_worktree_info_target
      rw [hr]
      show (match findMarkers msg with
        | [m] => some m
        | _ => none) = none
      cases hfm : findMarkers msg with
      | nil => rfl
      | cons m rest =>
        cases rest with
        | nil => exact absurd (by rw [hfm]; rfl) hlen
        | cons m2 rest2 => rfl
    refine ⟨hgl, ?_⟩
    unfold mainStep
    rw [hgl]

/-- Witness for C2 at three concrete states: one whose last target
commit message carries exactly the marker of the current head, one with
no target branch, and one whose last message contains no marker. -/
theorem check_decision_rule_witness :
    mainStep (RepoState.mk [97] [Commit.mk [98] [60, 124, 97, 124, 62]] none [])
        [] [99]
      = RepoState.mk [97] [Commit.mk [98] [60, 124, 97, 124, 62]] none [] ∧
    get_last_worktree_info_target (RepoState.mk [97] [] none []) = none ∧
    mainStep (RepoState.mk [97] [] none []) [] [99]
      = collect_info_and_saved_to_another_branch
          (RepoState.mk [97] [] none []) [] [99] ∧
    get_last_worktree_info_target
        (RepoState.mk [97] [Commit.mk [98] []] none []) = none ∧
    mainStep (RepoState.mk [97] [Commit.mk [98] []] none []) [] [99]
      = collect_info_and_saved_to_another_branch
          (RepoState.mk [97] [Commit.mk [98] []] none []) [] [99] := by
  refine ⟨?_, ?_, ?_, ?_, ?_⟩
  · exact (check_decision_rule
      (RepoState.mk [97] [Commit.mk [98] [60, 124, 97, 124, 62]] none [])
      [] [99]).1 _ rfl (by rfl)
  · exact ((check_decision_rule (RepoState.mk [97] [] none []) [] [99]).2.1 rfl).1
  · exact ((check_decision_rule (RepoState.mk [97] [] none []) [] [99]).2.1 rfl).2
  · exact ((check_decision_rule (RepoState.mk [97] [Commit.mk [98] []] none [])
      [] [99]).2.2 _ rfl (by decide)).1
  · exact ((check_decision_rule (RepoState.mk [97] [Commit.mk [98] []] none [])
      [] [99]).2.2 _ rfl (by decide)).2

/-- C1 — Idempotency of the full pipeline for a fixed source commit
(a 40-byte lowercase-hex hash): when the first run is not already up to
date it creates exactly one commit on the target branch; after the
first run the marker extracted from the target branch's latest commit
message equals the source commit hash (`UP_TO_DATE`); and the second
run returns the state unchanged — no mutation of any branch or file. -/
theorem pipeline_idempotent (s : RepoState) (info info2 : Snapshot)
    (id1 id2 : List Nat)
    (hlen : s.headCommit.length = 40)
    (hhex : ∀ c ∈ s.headCommit, isLowerHex c = true)
    (hid1 : ∀ c ∈ id1, isLowerHex c = true) :
    (get_last_worktree_info_target s ≠ some s.headCommit →
      (mainStep s info id1).targetBranch.length = s.targetBranch.length + 1) ∧
    get_last_worktree_info_target (mainStep s info id1) = some s.headCommit ∧
    mainStep (mainStep s info id1) info2 id2 = mainStep s info id1 := by
  by_cases hup : get_last_worktree_info_target s = some s.headCommit
  · have hstep : mainStep s info id1 = s := by
      unfold mainStep
      rw [hup]
      simp
    have hstep2 : mainStep s info2 id2 = s := by
      unfold mainStep
      rw [hup]
      simp
    exact ⟨fun hn => absurd hup hn, by rw [hstep]; exact hup,
      by rw [hstep, hstep2]⟩
  · have hstep : mainStep s info id1
        = collect_info_and_saved_to_another_branch s info id1 := by
      unfold mainStep
      cases hg : get_last_worktree_info_target s with
      | none => rfl
      | some t =>
        have ht : t ≠ s.headCommit := fun he => hup (by rw [hg, he])
        simp [ht]
    have hne : s.headCommit ≠ [] := by
      intro he
      rw [he] at hlen
      simp at hlen
    have hgl : get_last_worktree_info_target
        (collect_info_and_saved_to_another_branch s info id1)
        = some s.headCommit := by
      unfold get_last_worktree_info_target readLastOneline
        collect_info_and_saved_to_another_branch
      simp only [onelineOf]
      rw [findMarkers_oneline id1 s.headCommit hid1 hne hhex]
    refine ⟨fun _ => ?_, by rw [hstep]; exact hgl, ?_⟩
    · rw [hstep]
      simp [collect_info_and_saved_to_another_branch]
    · rw [hstep]
      unfold mainStep
      rw [hgl]
      simp [collect_info_and_saved_to_another_branch]

/-- Witness for C1: the pipeline run twice from a state with no target
branch, a 40-byte head hash, and a 40-byte fresh commit hash. -/
theorem pipeline_idempotent_witness :
    (mainStep (RepoState.mk (List.replicate 40 97) [] none [])
        [] (List.replicate 40 98)).targetBranch.length
      = (RepoState.mk (List.replicate 40 97) [] none []).targetBranch.length + 1 ∧
    get_last_worktree_info_target
        (mainStep (RepoState.mk (List.replicate 40 97) [] none [])
          [] (List.replicate 40 98))
      = some (RepoState.mk (List.replicate 40 97) [] none []).headCommit ∧
    mainStep
        (mainStep (RepoState.mk (List.replicate 40 97) [] none [])
          [] (List.replicate 40 98)) [] []
      = mainStep (RepoState.mk (List.replicate 40 97) [] none [])
          [] (List.replicate 40 98) := by
  have h := pipeline_idempotent (RepoState.mk (List.replicate 40 97) [] none [])
    [] [] (List.replicate 40 98) [] (by decide) (by decide) (by decide)
  exact ⟨h.1 (by decide), h.2.1, h.2.2⟩

/-!
Collector claims: missing history is fatal; snapshot completeness.
-/

theorem collectTimes_error_of_mem (hist : String → List Nat)
    (sized : List (String × Int)) (p : String) (sz : Int)
    (hmem : (p, sz) ∈ sized)
    (hfail : ∃ e, parseTimeHash (hist p) = .error e) :
    ∃ e, collectTimes hist sized = .error e := by
  induction sized with
  | nil => simp at hmem
  | cons q rest ih =>
    obtain ⟨a, b⟩ := q
    cases hq : parseTimeHash (hist a) with
    | error e => exact ⟨e, by simp [collectTimes, hq, Except.bind]⟩
    | ok th =>
      rcases List.mem_cons.mp hmem with he | hmem'
      · obtain ⟨e, hfe⟩ := hfail
        rw [(Prod.mk.injEq .. |>.mp he).1] at hfe
        rw [hq] at hfe
        exact absurd hfe (by simp)
      · obtain ⟨e, he⟩ := ih hmem'
        exact ⟨e, by simp [collectTimes, hq, he, Except.bind, Except.map]⟩

/-- C8 — Missing history record is fatal: if phase 1 of the collection
succeeds and some tree-listed path's history query yields empty output,
the whole collection aborts with an error (the unpacking of the
NUL-split output raises, uncaught and fatal like a command failure)
before any `Snapshot` is produced — so no snapshot with a phantom entry
is ever returned; by construction every entry of a returned `Snapshot`
carries a time and a hash. -/
theorem missing_history_aborts (lines : List (List Nat))
    (hist : String → List Nat) (sized : List (String × Int))
    (p : String) (sz : Int)
    (hsz : collectSizes [] lines = .ok sized)
    (hmem : (p, sz) ∈ sized)
    (hempty : hist p = []) :
    ∃ e, collect_info_for_head_commit lines hist = .error e := by
  have hpt : ∃ e, parseTimeHash (hist p) = .error e := by
    rw [hempty]
    exact ⟨.uncaught "ValueError", rfl⟩
  obtain ⟨e, he⟩ := collectTimes_error_of_mem hist sized p sz hmem hpt
  refine ⟨e, ?_⟩
  unfold collect_info_for_head_commit
  rw [hsz]
  simpa [Except.bind] using he

/-- Witness for C8: a one-line listing (`0 NUL a`) whose only path gets
an empty history output. -/
theorem missing_history_aborts_witness :
    ∃ e, collect_info_for_head_commit [[48, 0, 97]] (fun _ => []) = .error e :=
  missing_history_aborts [[48, 0, 97]] (fun _ => []) [("a", 0)] "a" 0 rfl
    (by simp) rfl

theorem parseLines_length (lines : List (List Nat))
    (parsed : List (String × Int)) (h : parseLines lines = .ok parsed) :
    parsed.length = lines.length := by
  induction lines generalizing parsed with
  | nil =>
    rw [parseLines] at h
    cases h
    rfl
  | cons line rest ih =>
    rw [parseLines] at h
    cases hx : parseLine line with
    | error e => rw [hx] at h; exact absurd h (by simp [Except.bind])
    | ok x =>
      rw [hx] at h
      cases hr : parseLines rest with
      | error e => rw [hr] at h; exact absurd h (by simp [Except.bind, Except.map])
      | ok tp =>
        rw [hr] at h
        simp [Except.bind, Except.map] at h
        rw [← h]
        simp [ih tp hr]

theorem dictInsert_notMem {κ α : Type} [DecidableEq κ] (d : List (κ × α))
    (k : κ) (v : α) (h : k ∉ d.map Prod.fst) :
    dictInsert d k v = d ++ [(k, v)] := by
  simp [dictInsert, h]

theorem collectSizes_eq_parseLines (lines : List (List Nat)) :
    ∀ (parsed : List (String × Int)) (d : List (String × Int)),
    parseLines lines = .ok parsed →
    ((d ++ parsed).map Prod.fst).Nodup →
    collectSizes d lines = .ok (d ++ parsed) := by
  induction lines with
  | nil =>
    intro parsed d hp hn
    rw [parseLines] at hp
    cases hp
    simp [collectSizes]
  | cons line rest ih =>
    intro parsed d hp hn
    rw [parseLines] at hp
    cases hx : parseLine line with
    | error e => rw [hx] at hp; exact absurd hp (by simp [Except.bind])
    | ok x =>
      rw [hx] at hp
      cases hr : parseLines rest with
      | error e => rw [hr] at hp; exact absurd hp (by simp [Except.bind, Except.map])
      | ok tp =>
        rw [hr] at hp
        simp [Except.bind, Except.map] at hp
        subst hp
        rw [collectSizes, hx]
        show collectSizes (dictInsert d x.1 x.2) rest = .ok (d ++ x :: tp)
        have hxeta : x = (x.1, x.2) := rfl
        have hshape : d ++ x :: tp = (d ++ [(x.1, x.2)]) ++ tp := by
          rw [← hxeta]
          simp
        have hnot : x.1 ∉ d.map Prod.fst := by
          rw [hshape] at hn
          have := (List.nodup_append.mp (by simpa using hn)).2.2
          intro hin
          exact this hin (by simp)
        rw [dictInsert_notMem d x.1 x.2 hnot, hshape]
        exact ih tp (d ++ [(x.1, x.2)]) hr (by rw [← hshape]; exact hn)

theorem collectTimes_ok_spec (hist : String → List Nat)
    (sized : List (String × Int)) :
    ∀ snap : Snapshot, collectTimes hist sized = .ok snap →
    snap.map Prod.fst = sized.map Prod.fst ∧
    snap.length = sized.length ∧
    ∀ pr ∈ snap, parseTimeHash (hist pr.1) = .ok (pr.2.time, pr.2.hash) := by
  induction sized with
  | nil =>
    intro snap h
    rw [collectTimes] at h
    cases h
    exact ⟨rfl, rfl, by simp⟩
  | cons q rest ih =>
    obtain ⟨p, sz⟩ := q
    intro snap h
    rw [collectTimes] at h
    cases hq : parseTimeHash (hist p) with
    | error e => rw [hq] at h; exact absurd h (by simp [Except.bind])
    | ok th =>
      rw [hq] at h
      cases hr : collectTimes hist rest with
      | error e => rw [hr] at h; exact absurd h (by simp [Except.bind, Except.map])
      | ok tsnap =>
        rw [hr] at h
        simp [Except.bind, Except.map] at h
        subst h
        obtain ⟨ihm, ihl, ihp⟩ := ih tsnap hr
        refine ⟨by simpa using ihm, by simpa using ihl, ?_⟩
        intro pr hpr
        rcases List.mem_cons.mp hpr with he | hmem'
        · subst he
          simpa using hq
        · exact ihp pr hmem'

/-- C9 — Snapshot completeness and pairing: when every listing line
parses (its path decodes) and the decoded paths are pairwise distinct,
a successfully returned `Snapshot` has exactly one entry per listing
line, its keys are exactly those decoded paths (hence unique), and each
entry's time and hash are the two fields of the single history query
for that entry's path, read together. -/
theorem snapshot_complete (lines : List (List Nat)) (hist : String → List Nat)
    (parsed : List (String × Int)) (snap : Snapshot)
    (hparse : parseLines lines = .ok parsed)
    (hnodup : (parsed.map Prod.fst).Nodup)
    (hok : collect_info_for_head_commit lines hist = .ok snap) :
    snap.length = lines.length ∧
    snap.map Prod.fst = parsed.map Prod.fst ∧
    (snap.map Prod.fst).Nodup ∧
    ∀ pr ∈ snap, parseTimeHash (hist pr.1) = .ok (pr.2.time, pr.2.hash) := by
  have hsz : collectSizes [] lines = .ok parsed := by
    simpa using collectSizes_eq_parseLines lines parsed [] hparse (by simpa using hnodup)
  unfold collect_info_for_head_commit at hok
  rw [hsz] at hok
  simp only [Except.bind] at hok
  obtain ⟨hmap, hlen, hpair⟩ := collectTimes_ok_spec hist parsed snap hok
  refine ⟨by rw [hlen, parseLines_length lines parsed hparse], hmap,
    by rw [hmap]; exact hnodup, hpair⟩

/-- Witness for C9: a two-line listing (`1 NUL a`, `2 NUL b`) with
distinct history outputs per path. -/
theorem snapshot_complete_witness :
    ([("a", FileRecord.mk 1 5 "h1"), ("b", FileRecord.mk 2 6 "h2")] : Snapshot).length
        = [[49, 0, 97], [50, 0, 98]].length ∧
    ([("a", FileRecord.mk 1 5 "h1"), ("b", FileRecord.mk 2 6 "h2")] : Snapshot).map Prod.fst
        = ([("a", 1), ("b", 2)] : List (String × Int)).map Prod.fst ∧
    (([("a", FileRecord.mk 1 5 "h1"), ("b", FileRecord.mk 2 6 "h2")] : Snapshot).map
        Prod.fst).Nodup ∧
    ∀ pr ∈ ([("a", FileRecord.mk 1 5 "h1"), ("b", FileRecord.mk 2 6 "h2")] : Snapshot),
      parseTimeHash
          ((fun p => if p = "a" then [53, 0, 104, 49] else [54, 0, 104, 50]) pr.1)
        = .ok (pr.2.time, pr.2.hash) :=
  snapshot_complete [[49, 0, 97], [50, 0, 98]]
    (fun p => if p = "a" then [53, 0, 104, 49] else [54, 0, 104, 50])
    [("a", 1), ("b", 2)]
    [("a", FileRecord.mk 1 5 "h1"), ("b", FileRecord.mk 2 6 "h2")]
    rfl (by simp) rfl

/-!
Printable-ASCII round-trip through the tool's quoting and the codec.
-/

theorem decodeEscapes_plain_cons (b : Nat) (rest r : List Nat)
    (hb : b ≠ 92) (hrest : decodeEscapes rest = .ok r) :
    decodeEscapes (b :: rest) = .ok (b :: r) := by
  rw [decodeEscapes.eq_def]
  simp [hb, hrest, Except.map]

theorem decodeEscapes_plain (p : List Nat) (hp : ∀ b ∈ p, b ≠ 92) :
    decodeEscapes p = .ok p := by
  induction p with
  | nil => rfl
  | cons b t ih =>
    exact decodeEscapes_plain_cons b t t (hp b (by simp))
      (ih (fun c hc => hp c (by simp [hc])))

theorem decodeEscapes_escaped_cons (b : Nat) (rest r : List Nat)
    (hb : b = 34 ∨ b = 92) (hrest : decodeEscapes rest = .ok r) :
    decodeEscapes (92 :: b :: rest) = .ok (b :: r) := by
  rcases hb with hb | hb <;> subst hb <;>
    (rw [decodeEscapes.eq_def];
     simp [is_digit_in_ascii, cEscape, hrest, Except.map])

theorem decodeEscapes_quoteBody (p : List Nat) :
    decodeEscapes ((p.map quoteByte).flatten) = .ok p := by
  induction p with
  | nil => rfl
  | cons b t ih =>
    simp only [List.map_cons, List.flatten_cons]
    by_cases hb : b = 34 ∨ b = 92
    · have hsel : quoteByte b = [92, b] := by
        unfold quoteByte
        rw [if_pos hb]
      rw [hsel, List.cons_append, List.cons_append, List.nil_append]
      exact decodeEscapes_escaped_cons b _ t hb ih
    · have hsel : quoteByte b = [b] := by
        unfold quoteByte
        rw [if_neg hb]
      rw [hsel, List.cons_append, List.nil_append]
      exact decodeEscapes_plain_cons b _ t (by rw [not_or] at hb; exact hb.2) ih

theorem stripQuotes_wrap (body : List Nat) :
    stripQuotes (34 :: (body ++ [34])) = .ok body := by
  unfold stripQuotes
  have h1 : (34 :: (body ++ [34])).head? = some 34 := rfl
  have h2 : (34 :: (body ++ [34])).getLast? = some 34 := by
    rw [show (34 : Nat) :: (body ++ [34]) = (34 :: body) ++ [34] from by simp]
    exact List.getLast?_concat _
  rw [if_pos h1, if_pos h2]
  simp

theorem stripQuotes_plain (p : List Nat) (hp : p.head? ≠ some 34) :
    stripQuotes p = .ok p := by
  unfold stripQuotes
  rw [if_neg hp]

theorem utf8Aux_ascii (p : List Nat) (hp : ∀ b ∈ p, b < 128) :
    utf8Aux none p = some (p.map Char.ofNat) := by
  induction p with
  | nil => rfl
  | cons b t ih =>
    have hb : b ≤ 127 := by
      have := hp b (by simp)
      omega
    have iht := ih (fun c hc => hp c (by simp [hc]))
    rw [utf8Aux, if_pos hb, iht]
    rfl

theorem utf8Decode_ascii (p : List Nat) (hp : ∀ b ∈ p, b < 128) :
    utf8Decode p = some (p.map Char.ofNat) :=
  utf8Aux_ascii p hp

/-- C6 — Printable-ASCII round-trip: for every path of printable ASCII
bytes, the codec applied to the tool's own quoting of that path (raw
bytes when the path has no double quote or backslash, the quoted and
escaped form otherwise) returns the original path text unchanged. -/
theorem printable_ascii_roundtrip (p : List Nat)
    (hp : ∀ b ∈ p, 32 ≤ b ∧ b ≤ 126) :
    decode_git_ls_tree_path (gitQuotePath p) = .ok (asciiString p) := by
  have hall : (p.all fun b => decide (b < 256)) = true := by
    rw [List.all_eq_true]
    intro b hb
    have := hp b hb
    simp
    omega
  have hutf : utf8Decode p = some (p.map Char.ofNat) :=
    utf8Decode_ascii p (fun b hb => by have := hp b hb; omega)
  unfold gitQuotePath
  by_cases hq : (p.any fun b => decide (b = 34 ∨ b = 92)) = true
  · rw [if_pos hq]
    have h1 := stripQuotes_wrap ((p.map quoteByte).flatten)
    have h2 := decodeEscapes_quoteBody p
    unfold decode_git_ls_tree_path
    rw [h1]
    simp [h2, hall, hutf, asciiString]
  · rw [if_neg hq]
    have hnb : ∀ b ∈ p, b ≠ 34 ∧ b ≠ 92 := by
      intro b hb
      simp [List.any_eq_true] at hq
      have := hq b hb
      tauto
    have hne : p.head? ≠ some 34 := by
      cases p with
      | nil => simp
      | cons b t =>
        simp only [List.head?_cons, Ne, Option.some.injEq]
        exact (hnb b (by simp)).1
    have hplain : decodeEscapes p = .ok p :=
      decodeEscapes_plain p (fun b hb => (hnb b hb).2)
    unfold decode_git_ls_tree_path
    rw [stripQuotes_plain p hne]
    simp [hplain, hall, hutf, asciiString]

/-- Witness for C6 at the concrete printable path `a\b`, which the tool
quotes as `"a\\b"`. -/
theorem printable_ascii_roundtrip_witness :
    decode_git_ls_tree_path (gitQuotePath [97, 92, 98])
      = .ok (asciiString [97, 92, 98]) :=
  printable_ascii_roundtrip [97, 92, 98] (by decide)

end RepoSnap
